import Mathlib

/-!
Verification of the polygon-to-bounding-box converter
(`polygon_to_bbox_converter.py` and its inlined copies in
`test_polygon_converter.py`).

The embedding mirrors the Python source:

* a raw vertex entry is a list of JSON numbers, modelled as `List ℚ`;
  `int(·)` on such a number truncates toward zero (`truncRat`);
* a shape is a JSON object with the three optional keys the code reads
  (`label`, `points`, `shape_type`), modelled as `Option`-valued fields;
* a document is a JSON object with the two optional keys the code reads
  (`imagePath`, `shapes`);
* Python's `min(xs)` / `max(xs)` on a non-empty list `h :: t` is the left
  fold of the binary `min` / `max` over `t` started at `h` (`listMin`,
  `listMax`);
* the I/O failure branch of `process_json_file` (a `JSONDecodeError` or
  `FileNotFoundError`) is modelled by passing `none` as the parsed
  document, and the driver's CSV write is modelled by the `Option`
  result of `convert_directory_to_csv`: `none` means
  `write_bboxes_to_csv` is never invoked.
-/

/-- Python `min(h :: t)`: left fold of binary `min` over `t` started at `h`. -/
def listMin (h : Int) (t : List Int) : Int := t.foldl min h

/-- Python `max(h :: t)`: left fold of binary `max` over `t` started at `h`. -/
def listMax (h : Int) (t : List Int) : Int := t.foldl max h

lemma listMin_cons (h a : Int) (t : List Int) :
    listMin h (a :: t) = listMin (min h a) t := rfl

lemma listMax_cons (h a : Int) (t : List Int) :
    listMax h (a :: t) = listMax (max h a) t := rfl

lemma listMin_le (h : Int) (t : List Int) : ∀ x ∈ h :: t, listMin h t ≤ x := by
  induction t generalizing h with
  | nil =>
    intro x hx
    simp only [List.mem_singleton] at hx
    simp [listMin, hx]
  | cons a t ih =>
    intro x hx
    rw [listMin_cons]
    rcases List.mem_cons.mp hx with rfl | hx'
    · exact le_trans (ih (min x a) (min x a) (List.mem_cons_self _ _)) (min_le_left x a)
    · rcases List.mem_cons.mp hx' with rfl | hx''
      · exact le_trans (ih (min h x) (min h x) (List.mem_cons_self _ _)) (min_le_right h x)
      · exact ih (min h a) x (List.mem_cons.mpr (Or.inr hx''))

lemma listMax_ge (h : Int) (t : List Int) : ∀ x ∈ h :: t, x ≤ listMax h t := by
  induction t generalizing h with
  | nil =>
    intro x hx
    simp only [List.mem_singleton] at hx
    simp [listMax, hx]
  | cons a t ih =>
    intro x hx
    rw [listMax_cons]
    rcases List.mem_cons.mp hx with rfl | hx'
    · exact le_trans (le_max_left x a) (ih (max x a) (max x a) (List.mem_cons_self _ _))
    · rcases List.mem_cons.mp hx' with rfl | hx''
      · exact le_trans (le_max_right h x) (ih (max h x) (max h x) (List.mem_cons_self _ _))
      · exact ih (max h a) x (List.mem_cons.mpr (Or.inr hx''))

lemma listMin_mem (h : Int) (t : List Int) : listMin h t ∈ h :: t := by
  induction t generalizing h with
  | nil => simp [listMin]
  | cons a t ih =>
    rw [listMin_cons]
    rcases List.mem_cons.mp (ih (min h a)) with heq | hmem
    · rcases min_choice h a with h1 | h1
      · rw [heq, h1]; exact List.mem_cons_self _ _
      · rw [heq, h1]
        exact List.mem_cons.mpr (Or.inr (List.mem_cons_self _ _))
    · exact List.mem_cons.mpr (Or.inr (List.mem_cons.mpr (Or.inr hmem)))

lemma listMax_mem (h : Int) (t : List Int) : listMax h t ∈ h :: t := by
  induction t generalizing h with
  | nil => simp [listMax]
  | cons a t ih =>
    rw [listMax_cons]
    rcases List.mem_cons.mp (ih (max h a)) with heq | hmem
    · rcases max_choice h a with h1 | h1
      · rw [heq, h1]; exact List.mem_cons_self _ _
      · rw [heq, h1]
        exact List.mem_cons.mpr (Or.inr (List.mem_cons_self _ _))
    · exact List.mem_cons.mpr (Or.inr (List.mem_cons.mpr (Or.inr hmem)))

lemma listMin_eq_of_mem_of_le (h x : Int) (t : List Int)
    (hm : x ∈ h :: t) (hb : ∀ y ∈ h :: t, x ≤ y) : listMin h t = x :=
  le_antisymm (listMin_le h t x hm) (hb _ (listMin_mem h t))

lemma listMax_eq_of_mem_of_ge (h x : Int) (t : List Int)
    (hm : x ∈ h :: t) (hb : ∀ y ∈ h :: t, y ≤ x) : listMax h t = x :=
  le_antisymm (hb _ (listMax_mem h t)) (listMax_ge h t x hm)

/--
`polygon_to_bbox` from `polygon_to_bbox_converter.py`: empty input gives the
`(0, 0, 0, 0)` sentinel; otherwise the minima of the coordinate lists give
`(col_x, row_y)` and the ranges give `(width, height)`.
-/
def polygon_to_bbox : List (Int × Int) → Int × Int × Int × Int
  | [] => (0, 0, 0, 0)
  | p :: rest =>
    let min_x := listMin p.1 (rest.map Prod.fst)
    let max_x := listMax p.1 (rest.map Prod.fst)
    let min_y := listMin p.2 (rest.map Prod.snd)
    let max_y := listMax p.2 (rest.map Prod.snd)
    (min_x, min_y, max_x - min_x, max_y - min_y)

lemma polygon_to_bbox_cons (p : Int × Int) (ps : List (Int × Int)) :
    polygon_to_bbox (p :: ps) =
      (listMin p.1 (ps.map Prod.fst), listMin p.2 (ps.map Prod.snd),
       listMax p.1 (ps.map Prod.fst) - listMin p.1 (ps.map Prod.fst),
       listMax p.2 (ps.map Prod.snd) - listMin p.2 (ps.map Prod.snd)) := rfl

/-- C6: the Bounding-Box Reducer applied to the empty vertex list returns
exactly `(0, 0, 0, 0)`. -/
theorem polygon_to_bbox_nil : polygon_to_bbox [] = (0, 0, 0, 0) := rfl

/-- C1: on a non-empty vertex list the Bounding-Box Reducer returns exactly
`(min x, min y, max x - min x, max y - min y)` — its first two components are
the minima of the coordinate projections, its last two added to them give the
maxima — and both the width and the height are nonnegative. -/
theorem polygon_to_bbox_minmax_spec (p : Int × Int) (ps : List (Int × Int)) :
    ((p :: ps).map Prod.fst).minimum = ((polygon_to_bbox (p :: ps)).1 : WithTop ℤ) ∧
    ((p :: ps).map Prod.snd).minimum = ((polygon_to_bbox (p :: ps)).2.1 : WithTop ℤ) ∧
    ((p :: ps).map Prod.fst).maximum =
      (((polygon_to_bbox (p :: ps)).1 + (polygon_to_bbox (p :: ps)).2.2.1 : ℤ) : WithBot ℤ) ∧
    ((p :: ps).map Prod.snd).maximum =
      (((polygon_to_bbox (p :: ps)).2.1 + (polygon_to_bbox (p :: ps)).2.2.2 : ℤ) : WithBot ℤ) ∧
    0 ≤ (polygon_to_bbox (p :: ps)).2.2.1 ∧ 0 ≤ (polygon_to_bbox (p :: ps)).2.2.2 := by
  rw [polygon_to_bbox_cons]
  have hx : (p :: ps).map Prod.fst = p.1 :: ps.map Prod.fst := List.map_cons _ _ _
  have hy : (p :: ps).map Prod.snd = p.2 :: ps.map Prod.snd := List.map_cons _ _ _
  have hminx := listMin_mem p.1 (ps.map Prod.fst)
  have hminy := listMin_mem p.2 (ps.map Prod.snd)
  have hmaxx := listMax_mem p.1 (ps.map Prod.fst)
  have hmaxy := listMax_mem p.2 (ps.map Prod.snd)
  have hwx : listMin p.1 (ps.map Prod.fst) +
      (listMax p.1 (ps.map Prod.fst) - listMin p.1 (ps.map Prod.fst)) =
      listMax p.1 (ps.map Prod.fst) := by ring
  have hwy : listMin p.2 (ps.map Prod.snd) +
      (listMax p.2 (ps.map Prod.snd) - listMin p.2 (ps.map Prod.snd)) =
      listMax p.2 (ps.map Prod.snd) := by ring
  refine ⟨?_, ?_, ?_, ?_, ?_, ?_⟩
  · rw [hx]
    exact List.minimum_eq_coe_iff.mpr ⟨hminx, listMin_le p.1 (ps.map Prod.fst)⟩
  · rw [hy]
    exact List.minimum_eq_coe_iff.mpr ⟨hminy, listMin_le p.2 (ps.map Prod.snd)⟩
  · rw [hx]
    simp only [hwx]
    exact List.maximum_eq_coe_iff.mpr ⟨hmaxx, listMax_ge p.1 (ps.map Prod.fst)⟩
  · rw [hy]
    simp only [hwy]
    exact List.maximum_eq_coe_iff.mpr ⟨hmaxy, listMax_ge p.2 (ps.map Prod.snd)⟩
  · exact sub_nonneg.mpr (le_trans
      (listMin_le p.1 (ps.map Prod.fst) p.1 (List.mem_cons_self _ _))
      (listMax_ge p.1 (ps.map Prod.fst) p.1 (List.mem_cons_self _ _)))
  · exact sub_nonneg.mpr (le_trans
      (listMin_le p.2 (ps.map Prod.snd) p.2 (List.mem_cons_self _ _))
      (listMax_ge p.2 (ps.map Prod.snd) p.2 (List.mem_cons_self _ _)))

/-- C5: on a non-empty vertex list the Reducer returns the minimal axis-aligned
enclosing rectangle: every vertex lies within
`[col_x, col_x + width] × [row_y, row_y + height]`, and any rectangle enclosing
all the vertices has width at least `width` and height at least `height`. -/
theorem polygon_to_bbox_minimal_enclosing (p : Int × Int) (ps : List (Int × Int)) :
    (∀ v ∈ p :: ps,
      (polygon_to_bbox (p :: ps)).1 ≤ v.1 ∧
      v.1 ≤ (polygon_to_bbox (p :: ps)).1 + (polygon_to_bbox (p :: ps)).2.2.1 ∧
      (polygon_to_bbox (p :: ps)).2.1 ≤ v.2 ∧
      v.2 ≤ (polygon_to_bbox (p :: ps)).2.1 + (polygon_to_bbox (p :: ps)).2.2.2) ∧
    (∀ a b w h : Int,
      (∀ v ∈ p :: ps, a ≤ v.1 ∧ v.1 ≤ a + w ∧ b ≤ v.2 ∧ v.2 ≤ b + h) →
      (polygon_to_bbox (p :: ps)).2.2.1 ≤ w ∧ (polygon_to_bbox (p :: ps)).2.2.2 ≤ h) := by
  rw [polygon_to_bbox_cons]
  dsimp only
  constructor
  · intro v hv
    have hv1 : v.1 ∈ p.1 :: ps.map Prod.fst := by
      rw [← List.map_cons]
      exact List.mem_map_of_mem Prod.fst hv
    have hv2 : v.2 ∈ p.2 :: ps.map Prod.snd := by
      rw [← List.map_cons]
      exact List.mem_map_of_mem Prod.snd hv
    refine ⟨listMin_le _ _ _ hv1, ?_, listMin_le _ _ _ hv2, ?_⟩
    · have := listMax_ge p.1 (ps.map Prod.fst) v.1 hv1
      omega
    · have := listMax_ge p.2 (ps.map Prod.snd) v.2 hv2
      omega
  · intro a b w h hencl
    have hminx := listMin_mem p.1 (ps.map Prod.fst)
    have hmaxx := listMax_mem p.1 (ps.map Prod.fst)
    have hminy := listMin_mem p.2 (ps.map Prod.snd)
    have hmaxy := listMax_mem p.2 (ps.map Prod.snd)
    rw [← List.map_cons] at hminx hmaxx hminy hmaxy
    obtain ⟨vmin, hvmin, hvmin1⟩ := List.mem_map.mp hminx
    obtain ⟨vmax, hvmax, hvmax1⟩ := List.mem_map.mp hmaxx
    obtain ⟨umin, humin, humin1⟩ := List.mem_map.mp hminy
    obtain ⟨umax, humax, humax1⟩ := List.mem_map.mp hmaxy
    have h1 := hencl vmin hvmin
    have h2 := hencl vmax hvmax
    have h3 := hencl umin humin
    have h4 := hencl umax humax
    omega

/-- A closed instance of the minimality half of the enclosing-rectangle
theorem, evaluated at a concrete polygon and a concrete candidate
rectangle. -/
theorem polygon_to_bbox_minimal_enclosing_witness :
    (polygon_to_bbox [(0, 0), (2, 3)]).2.2.1 ≤ 5 ∧
    (polygon_to_bbox [(0, 0), (2, 3)]).2.2.2 ≤ 7 :=
  (polygon_to_bbox_minimal_enclosing (0, 0) [(2, 3)]).2 0 0 5 7 (by decide)

lemma listMin_congr_perm (h h' : Int) (t t' : List Int)
    (hp : (h :: t).Perm (h' :: t')) : listMin h t = listMin h' t' := by
  apply listMin_eq_of_mem_of_le
  · exact hp.mem_iff.mpr (listMin_mem h' t')
  · intro y hy
    exact listMin_le h' t' y (hp.mem_iff.mp hy)

lemma listMax_congr_perm (h h' : Int) (t t' : List Int)
    (hp : (h :: t).Perm (h' :: t')) : listMax h t = listMax h' t' := by
  apply listMax_eq_of_mem_of_ge
  · exact hp.mem_iff.mpr (listMax_mem h' t')
  · intro y hy
    exact listMax_ge h' t' y (hp.mem_iff.mp hy)

lemma polygon_to_bbox_perm (V V' : List (Int × Int)) (hp : V.Perm V') :
    polygon_to_bbox V' = polygon_to_bbox V := by
  cases V with
  | nil =>
    rw [List.perm_nil.mp hp.symm]
  | cons p ps =>
    cases V' with
    | nil => exact absurd (List.perm_nil.mp hp) (by simp)
    | cons q qs =>
      have hx : (p.1 :: ps.map Prod.fst).Perm (q.1 :: qs.map Prod.fst) := by
        rw [← List.map_cons, ← List.map_cons]
        exact hp.map Prod.fst
      have hy : (p.2 :: ps.map Prod.snd).Perm (q.2 :: qs.map Prod.snd) := by
        rw [← List.map_cons, ← List.map_cons]
        exact hp.map Prod.snd
      rw [polygon_to_bbox_cons, polygon_to_bbox_cons,
        listMin_congr_perm _ _ _ _ hx, listMax_congr_perm _ _ _ _ hx,
        listMin_congr_perm _ _ _ _ hy, listMax_congr_perm _ _ _ _ hy]

/-- C10: the Bounding-Box Reducer is invariant under reordering of its input
and under duplicating any of its elements. -/
theorem polygon_to_bbox_perm_dup_invariant :
    (∀ V V' : List (Int × Int), V.Perm V' → polygon_to_bbox V' = polygon_to_bbox V) ∧
    (∀ (V : List (Int × Int)) (v : Int × Int), v ∈ V →
      polygon_to_bbox (v :: V) = polygon_to_bbox V) := by
  constructor
  · exact polygon_to_bbox_perm
  · intro V v hv
    cases V with
    | nil => exact absurd hv (by simp)
    | cons p ps =>
      rw [polygon_to_bbox_cons, polygon_to_bbox_cons]
      have hv1 : v.1 ∈ p.1 :: ps.map Prod.fst := by
        rw [← List.map_cons]
        exact List.mem_map_of_mem Prod.fst hv
      have hv2 : v.2 ∈ p.2 :: ps.map Prod.snd := by
        rw [← List.map_cons]
        exact List.mem_map_of_mem Prod.snd hv
      have e1 : listMin v.1 ((p :: ps).map Prod.fst) = listMin p.1 (ps.map Prod.fst) := by
        apply listMin_eq_of_mem_of_le
        · exact List.mem_cons.mpr (Or.inr (listMin_mem p.1 (ps.map Prod.fst)))
        · intro y hy
          rcases List.mem_cons.mp hy with rfl | hy'
          · exact listMin_le p.1 (ps.map Prod.fst) v.1 hv1
          · exact listMin_le p.1 (ps.map Prod.fst) y hy'
      have e2 : listMax v.1 ((p :: ps).map Prod.fst) = listMax p.1 (ps.map Prod.fst) := by
        apply listMax_eq_of_mem_of_ge
        · exact List.mem_cons.mpr (Or.inr (listMax_mem p.1 (ps.map Prod.fst)))
        · intro y hy
          rcases List.mem_cons.mp hy with rfl | hy'
          · exact listMax_ge p.1 (ps.map Prod.fst) v.1 hv1
          · exact listMax_ge p.1 (ps.map Prod.fst) y hy'
      have e3 : listMin v.2 ((p :: ps).map Prod.snd) = listMin p.2 (ps.map Prod.snd) := by
        apply listMin_eq_of_mem_of_le
        · exact List.mem_cons.mpr (Or.inr (listMin_mem p.2 (ps.map Prod.snd)))
        · intro y hy
          rcases List.mem_cons.mp hy with rfl | hy'
          · exact listMin_le p.2 (ps.map Prod.snd) v.2 hv2
          · exact listMin_le p.2 (ps.map Prod.snd) y hy'
      have e4 : listMax v.2 ((p :: ps).map Prod.snd) = listMax p.2 (ps.map Prod.snd) := by
        apply listMax_eq_of_mem_of_ge
        · exact List.mem_cons.mpr (Or.inr (listMax_mem p.2 (ps.map Prod.snd)))
        · intro y hy
          rcases List.mem_cons.mp hy with rfl | hy'
          · exact listMax_ge p.2 (ps.map Prod.snd) v.2 hv2
          · exact listMax_ge p.2 (ps.map Prod.snd) y hy'
      rw [e1, e2, e3, e4]

/-- A closed instance of the invariance theorem: reversing a concrete vertex
list and duplicating one of its vertices both leave the box unchanged. -/
theorem polygon_to_bbox_perm_dup_invariant_witness :
    polygon_to_bbox [(2, 3), (0, 0)] = polygon_to_bbox [(0, 0), (2, 3)] ∧
    polygon_to_bbox [(2, 3), (0, 0), (2, 3)] = polygon_to_bbox [(0, 0), (2, 3)] :=
  ⟨polygon_to_bbox_perm_dup_invariant.1 [(0, 0), (2, 3)] [(2, 3), (0, 0)] (by decide),
   polygon_to_bbox_perm_dup_invariant.2 [(0, 0), (2, 3)] (2, 3) (by decide)⟩

/-- Python `int(·)` on a JSON number: truncation toward zero. -/
def truncRat (q : ℚ) : Int := if q < 0 then q.ceil else q.floor

/-- A shape record: the three JSON keys the converter reads, each possibly
absent (`label`, `points`, `shape_type`). -/
structure Shape where
  label : Option String
  points : Option (List (List ℚ))
  shape_type : Option String
deriving Repr, DecidableEq

/-- One output row of the converter (the `bbox_info` dictionary). -/
structure BBoxInfo where
  filename : String
  col_x : Int
  row_y : Int
  width : Int
  height : Int
  label : String
deriving Repr, DecidableEq

/--
`extract_polygon_points` from `polygon_to_bbox_converter.py`: missing
`points` key gives `[]`; otherwise each raw entry with at least two
components contributes the pair of its first two components converted with
`int(·)`, and shorter entries are dropped.
-/
def extract_polygon_points (shape : Shape) : List (Int × Int) :=
  match shape.points with
  | none => []
  | some pts =>
    pts.filterMap fun point =>
      match point with
      | x :: y :: _ => some (truncRat x, truncRat y)
      | _ => none

/-- C3: on a shape whose vertex-list field is present, the Point Extractor
keeps exactly the raw entries with at least two components, in order, mapping
each to the truncation toward zero of its first two components; in
particular `[[64], [64, 15, 20], [67, 15]]` yields `[(64, 15), (67, 15)]`. -/
theorem extract_polygon_points_spec :
    (∀ (lab t : Option String) (raw : List (List ℚ)),
      extract_polygon_points ⟨lab, some raw, t⟩ =
        (raw.filter fun e => decide (2 ≤ e.length)).map
          (fun e => (truncRat (e.getD 0 0), truncRat (e.getD 1 0)))) ∧
    extract_polygon_points ⟨none, some [[64], [64, 15, 20], [67, 15]], none⟩ =
      [(64, 15), (67, 15)] := by
  constructor
  · intro lab t raw
    induction raw with
    | nil => rfl
    | cons e raw ih =>
      rcases e with _ | ⟨a, _ | ⟨b, rest⟩⟩
      · simpa [extract_polygon_points, List.filterMap_cons, List.filter_cons] using ih
      · simpa [extract_polygon_points, List.filterMap_cons, List.filter_cons] using ih
      · have hc : 2 ≤ (a :: b :: rest).length := by
          simp only [List.length_cons]
          omega
        simpa [extract_polygon_points, List.filterMap_cons, List.filter_cons, hc,
          List.getD_cons_zero, List.getD_cons_succ] using ih
  · decide

/-- An annotation document: the two JSON keys the converter reads
(`imagePath`, `shapes`), each possibly absent. -/
structure Document where
  imagePath : Option String
  shapes : Option (List Shape)
deriving Repr, DecidableEq

/-- The body of the per-shape loop of `process_json_file` /
`process_json_data`: skip unless `shape_type` is exactly `"polygon"`, default
the label to `"unknown"`, skip on empty extracted points, skip on
non-positive width or height, otherwise build the `bbox_info` row. -/
def process_shape (image_filename : String) (shape : Shape) : Option BBoxInfo :=
  if shape.shape_type ≠ some "polygon" then none
  else
    let label := shape.label.getD "unknown"
    let points := extract_polygon_points shape
    if points = [] then none
    else
      let r := polygon_to_bbox points
      if r.2.2.1 ≤ 0 ∨ r.2.2.2 ≤ 0 then none
      else some ⟨image_filename, r.1, r.2.1, r.2.2.1, r.2.2.2, label⟩

/-- The per-document loop: each shape appends at most one row, in shape-list
order, which is exactly `filterMap` of the loop body. -/
def process_shapes (image_filename : String) (shapes : List Shape) : List BBoxInfo :=
  shapes.filterMap (process_shape image_filename)

/-- `process_json_data` from `test_polygon_converter.py`: missing `shapes`
key gives `[]`; the filename defaults to `"test_image.png"`. -/
def process_json_data (data : Document) : List BBoxInfo :=
  match data.shapes with
  | none => []
  | some shapes => process_shapes (data.imagePath.getD "test_image.png") shapes

/-- `process_json_file` from `polygon_to_bbox_converter.py`. The `parsed`
argument is `none` on the caught `JSONDecodeError` / `FileNotFoundError`
branch (error printed, `[]` returned); a missing `shapes` key also gives
`[]`; the filename defaults to the file's stem with a `.png` suffix. -/
def process_json_file (parsed : Option Document) (stem : String) : List BBoxInfo :=
  match parsed with
  | none => []
  | some data =>
    match data.shapes with
    | none => []
    | some shapes => process_shapes (data.imagePath.getD (stem ++ ".png")) shapes

/-- The accumulation loop of `convert_directory_to_csv`: `all_bboxes` is the
concatenation, in directory order, of the per-file results. Each file is a
stem together with its parse result. -/
def collect_bboxes (files : List (String × Option Document)) : List BBoxInfo :=
  (files.map fun f => process_json_file f.2 f.1).flatten

/-- `convert_directory_to_csv`: returns the list handed to
`write_bboxes_to_csv`, or `none` when that write is never invoked (no JSON
files found, or `all_bboxes` empty). -/
def convert_directory_to_csv (files : List (String × Option Document)) :
    Option (List BBoxInfo) :=
  if files.isEmpty then none
  else
    let all_bboxes := collect_bboxes files
    if all_bboxes.isEmpty then none else some all_bboxes

/-- A shape qualifies for output when its declared type is exactly
`"polygon"` and its computed box has positive width and positive height
(an empty extracted vertex list gives the all-zero sentinel box, so it never
qualifies). -/
def qualifies (shape : Shape) : Prop :=
  shape.shape_type = some "polygon" ∧
  0 < (polygon_to_bbox (extract_polygon_points shape)).2.2.1 ∧
  0 < (polygon_to_bbox (extract_polygon_points shape)).2.2.2

instance (shape : Shape) : Decidable (qualifies shape) := by
  unfold qualifies
  infer_instance

/-- The output row built for a qualifying shape. -/
def record_of (image_filename : String) (shape : Shape) : BBoxInfo :=
  let r := polygon_to_bbox (extract_polygon_points shape)
  ⟨image_filename, r.1, r.2.1, r.2.2.1, r.2.2.2, shape.label.getD "unknown"⟩

lemma process_shape_eq (fname : String) (s : Shape) :
    process_shape fname s =
      if qualifies s then some (record_of fname s) else none := by
  by_cases h1 : s.shape_type = some "polygon"
  · by_cases hp : extract_polygon_points s = []
    · have hq : ¬ qualifies s := by
        intro hq
        have h2 := hq.2.1
        rw [hp] at h2
        simp [polygon_to_bbox] at h2
      simp [process_shape, h1, hp, hq]
    · by_cases hd : (polygon_to_bbox (extract_polygon_points s)).2.2.1 ≤ 0 ∨
        (polygon_to_bbox (extract_polygon_points s)).2.2.2 ≤ 0
      · have hq : ¬ qualifies s := by
          intro hq
          rcases hd with hd | hd
          · exact absurd hq.2.1 (by omega)
          · exact absurd hq.2.2 (by omega)
        simp [process_shape, h1, hp, hd, hq]
      · have hq : qualifies s := by
          refine ⟨h1, ?_, ?_⟩ <;> omega
        simp [process_shape, record_of, h1, hp, hd, hq]
  · have hq : ¬ qualifies s := fun hq => h1 hq.1
    simp [process_shape, h1, hq]

lemma process_shapes_eq_filter_map (fname : String) (shapes : List Shape) :
    process_shapes fname shapes =
      (shapes.filter fun s => decide (qualifies s)).map (record_of fname) := by
  induction shapes with
  | nil => rfl
  | cons s shapes ih =>
    rw [process_shapes, List.filterMap_cons, List.filter_cons]
    by_cases h : qualifies s
    · simp [process_shape_eq, h, ← ih, process_shapes]
    · simp [process_shape_eq, h, ← ih, process_shapes]

/-- C2: for a document whose shape list is present, the Aggregator's output is
exactly the shapes whose declared type is `"polygon"` and whose computed box
has positive width and height, in shape-list order, each mapped to its row,
and every row carries the document's resolved filename. -/
theorem process_json_file_filter_map_spec (stem : String) (doc : Document)
    (shapes : List Shape) (h : doc.shapes = some shapes) :
    process_json_file (some doc) stem =
      (shapes.filter fun s => decide (qualifies s)).map
        (record_of (doc.imagePath.getD (stem ++ ".png"))) ∧
    ∀ r ∈ process_json_file (some doc) stem,
      r.filename = doc.imagePath.getD (stem ++ ".png") := by
  have he : process_json_file (some doc) stem =
      process_shapes (doc.imagePath.getD (stem ++ ".png")) shapes := by
    simp [process_json_file, h]
  constructor
  · rw [he]
    exact process_shapes_eq_filter_map _ _
  · intro r hr
    rw [he, process_shapes_eq_filter_map] at hr
    obtain ⟨s, hs, rfl⟩ := List.mem_map.mp hr
    rfl

/-- Closed instance of the Aggregator characterization, on the two-shape
document of the unit tests (one polygon, one line): exactly the polygon's row
comes out, carrying the document's `imagePath`. -/
theorem process_json_file_filter_map_spec_witness :
    process_json_file
        (some ⟨some "test_image.png",
          some [⟨some "QSBD", some [[64, 10], [64, 15], [67, 15]], some "polygon"⟩,
                ⟨some "LINE", some [[10, 10], [20, 20]], some "line"⟩]⟩) "doc" =
      ([⟨some "QSBD", some [[64, 10], [64, 15], [67, 15]], some "polygon"⟩,
        ⟨some "LINE", some [[10, 10], [20, 20]], some "line"⟩].filter
          fun s => decide (qualifies s)).map (record_of "test_image.png") ∧
    ∀ r ∈ process_json_file
        (some ⟨some "test_image.png",
          some [⟨some "QSBD", some [[64, 10], [64, 15], [67, 15]], some "polygon"⟩,
                ⟨some "LINE", some [[10, 10], [20, 20]], some "line"⟩]⟩) "doc",
      r.filename = "test_image.png" :=
  process_json_file_filter_map_spec "doc"
    ⟨some "test_image.png",
      some [⟨some "QSBD", some [[64, 10], [64, 15], [67, 15]], some "polygon"⟩,
            ⟨some "LINE", some [[10, 10], [20, 20]], some "line"⟩]⟩
    [⟨some "QSBD", some [[64, 10], [64, 15], [67, 15]], some "polygon"⟩,
     ⟨some "LINE", some [[10, 10], [20, 20]], some "line"⟩] rfl

/-- C4: every row the Aggregator emits, for every input document, has
positive width and positive height. -/
theorem process_json_file_records_positive (parsed : Option Document)
    (stem : String) :
    ∀ r ∈ process_json_file parsed stem, 0 < r.width ∧ 0 < r.height := by
  intro r hr
  cases parsed with
  | none => simp [process_json_file] at hr
  | some doc =>
    cases hdoc : doc.shapes with
    | none => simp [process_json_file, hdoc] at hr
    | some shapes =>
      simp only [process_json_file, hdoc, process_shapes] at hr
      obtain ⟨s, hs, hps⟩ := List.mem_filterMap.mp hr
      rw [process_shape_eq] at hps
      by_cases hq : qualifies s
      · rw [if_pos hq] at hps
        cases hps
        exact ⟨hq.2.1, hq.2.2⟩
      · rw [if_neg hq] at hps
        cases hps

/-- Closed instance of the positivity invariant, on the row emitted for a
concrete square polygon. -/
theorem process_json_file_records_positive_witness :
    0 < (⟨"img.png", 10, 10, 10, 10, "VALID"⟩ : BBoxInfo).width ∧
    0 < (⟨"img.png", 10, 10, 10, 10, "VALID"⟩ : BBoxInfo).height :=
  process_json_file_records_positive
    (some ⟨some "img.png",
      some [⟨some "VALID", some [[10, 10], [10, 20], [20, 20], [20, 10]],
        some "polygon"⟩]⟩) "doc"
    ⟨"img.png", 10, 10, 10, 10, "VALID"⟩ (by decide)

/-- C7: an unreadable or unparsable document contributes zero rows, a
document lacking the `shapes` key contributes zero rows, and a document
contributing zero rows can be removed from the directory run without
changing the collected output. -/
theorem malformed_document_zero_records :
    (∀ stem : String, process_json_file none stem = []) ∧
    (∀ (stem : String) (doc : Document), doc.shapes = none →
      process_json_file (some doc) stem = []) ∧
    (∀ (pre post : List (String × Option Document)) (f : String × Option Document),
      process_json_file f.2 f.1 = [] →
      collect_bboxes (pre ++ f :: post) = collect_bboxes (pre ++ post)) := by
  refine ⟨fun stem => rfl, ?_, ?_⟩
  · intro stem doc h
    simp [process_json_file, h]
  · intro pre post f hf
    simp [collect_bboxes, hf]

/-- Closed instance: a directory with a good document, an unparsable file and
a document without a `shapes` key collects the same rows with or without the
two bad files. -/
theorem malformed_document_zero_records_witness :
    process_json_file none "bad" = [] ∧
    process_json_file (some ⟨some "a.png", none⟩) "noshapes" = [] ∧
    collect_bboxes
        [("good", some ⟨some "img.png",
            some [⟨some "VALID", some [[10, 10], [10, 20], [20, 20], [20, 10]],
              some "polygon"⟩]⟩),
          ("bad", none)] =
      collect_bboxes
        [("good", some ⟨some "img.png",
            some [⟨some "VALID", some [[10, 10], [10, 20], [20, 20], [20, 10]],
              some "polygon"⟩]⟩)] :=
  ⟨malformed_document_zero_records.1 "bad",
   malformed_document_zero_records.2.1 "noshapes" ⟨some "a.png", none⟩ rfl,
   malformed_document_zero_records.2.2
     [("good", some ⟨some "img.png",
         some [⟨some "VALID", some [[10, 10], [10, 20], [20, 20], [20, 10]],
           some "polygon"⟩]⟩)]
     [] ("bad", none) rfl⟩

/-- C8: when the whole run collects zero rows, the driver never invokes the
CSV write — it produces no output value at all. -/
theorem no_records_no_output (files : List (String × Option Document))
    (h : collect_bboxes files = []) :
    convert_directory_to_csv files = none := by
  unfold convert_directory_to_csv
  cases files with
  | nil => rfl
  | cons f fs => simp [h]

/-- Closed instance: a directory holding one unparsable file and one document
whose only polygon collapses to a zero-width box yields no CSV write. -/
theorem no_records_no_output_witness :
    convert_directory_to_csv
        [("bad", none),
         ("thin", some ⟨none,
            some [⟨some "ZERO_WIDTH", some [[10, 10], [10, 20]],
              some "polygon"⟩]⟩)] = none :=
  no_records_no_output
    [("bad", none),
     ("thin", some ⟨none,
        some [⟨some "ZERO_WIDTH", some [[10, 10], [10, 20]],
          some "polygon"⟩]⟩)] (by decide)

/-- C9: a shape without a vertex-list field yields the empty vertex sequence
from the Point Extractor, and dropping such a shape from a document's shape
list leaves the Aggregator's output unchanged. -/
theorem missing_points_shape_skipped (s : Shape) (hpts : s.points = none) :
    extract_polygon_points s = [] ∧
    ∀ (fname : String) (pre post : List Shape),
      process_shapes fname (pre ++ s :: post) = process_shapes fname (pre ++ post) := by
  have hext : extract_polygon_points s = [] := by
    simp [extract_polygon_points, hpts]
  refine ⟨hext, ?_⟩
  intro fname pre post
  have hnone : process_shape fname s = none := by
    rw [process_shape_eq]
    have hq : ¬ qualifies s := by
      intro hq
      have h2 := hq.2.1
      rw [hext] at h2
      simp [polygon_to_bbox] at h2
    simp [hq]
  simp [process_shapes, List.filterMap_append, List.filterMap_cons, hnone]

/-- Closed instance: a polygon shape with no `points` key extracts no
vertices and contributes no row next to a valid square polygon. -/
theorem missing_points_shape_skipped_witness :
    extract_polygon_points ⟨some "QSBD", none, some "polygon"⟩ = [] ∧
    process_shapes "img.png"
        [⟨some "VALID", some [[10, 10], [10, 20], [20, 20], [20, 10]],
          some "polygon"⟩,
         ⟨some "QSBD", none, some "polygon"⟩] =
      process_shapes "img.png"
        [⟨some "VALID", some [[10, 10], [10, 20], [20, 20], [20, 10]],
          some "polygon"⟩] :=
  ⟨(missing_points_shape_skipped ⟨some "QSBD", none, some "polygon"⟩ rfl).1,
   (missing_points_shape_skipped ⟨some "QSBD", none, some "polygon"⟩ rfl).2
     "img.png"
     [⟨some "VALID", some [[10, 10], [10, 20], [20, 20], [20, 10]],
       some "polygon"⟩] []⟩
